import Mathlib

/-!
Shallow embedding of `src/rustc.rs` (xargo's target / sysroot / source-tree
resolution core).

Modelling conventions:
- Filesystem paths are lists of components (`FsPath := List String`).
- The filesystem is an explicit map from paths to entries (file-with-content
  or directory); `Path::exists` is membership, `Path::is_file` checks for a
  file entry, `util::read` returns the content of a file entry.
- External-process output (`rustc --print ...` stdout) and the values of the
  environment variables `RUST_TARGET_PATH` / `XARGO_RUST_SRC` are explicit
  parameters of the functions that read them.  Environment directory values
  are modelled as already-parsed `FsPath`s.
- Requested target triples and directory entries are modelled as single
  normal path components (real triples never contain a path separator), so
  `PathBuf::push(triple)` appends one component when the triple is nonempty
  and is a no-op for the empty string.
- `Path::canonicalize` (an OS call) and `serde_json::from_str` (an external
  library) are uninterpreted function parameters; `serde_json::Value` is an
  explicit inductive with a serialization function standing for
  `Value::to_string`.
- Fallible Rust code (`Result<T>`) becomes `Except Err T`; `Hasher` state is
  the list of strings written to it (equal strings fed to a `Hasher` produce
  equal byte streams).
-/

/-- A filesystem path, as its list of components. -/
abbrev FsPath := List String

/-- A filesystem entry: a regular file with text content, or a directory. -/
inductive FsEntry : Type
  | file (content : String) : FsEntry
  | dir : FsEntry
deriving DecidableEq

/-- The state of the filesystem: which paths exist and what they are. -/
structure FS : Type where
  entries : List (FsPath × FsEntry)
deriving DecidableEq

/-- Look up the entry at a path. -/
def FS.lookup (fs : FS) (p : FsPath) : Option FsEntry :=
  (fs.entries.find? (fun e => e.1 == p)).map (fun e => e.2)

/-- `Path::exists`: true when some entry (file or directory) is at the path. -/
def FS.pathExists (fs : FS) (p : FsPath) : Bool :=
  (fs.lookup p).isSome

/-- `Path::is_file`: true when a regular file is at the path. -/
def FS.isFile (fs : FS) (p : FsPath) : Bool :=
  match fs.lookup p with
  | some (FsEntry.file _) => true
  | _ => false

/-- `util::read`: the content of the file at the path, if one is there. -/
def FS.read (fs : FS) (p : FsPath) : Option String :=
  match fs.lookup p with
  | some (FsEntry.file c) => some c
  | _ => none

/-- The error taxonomy of the fragment (`errors::*`). -/
inductive Err : Type
  | toolInvocation (msg : String) : Err
  | sourceComponentMissing (msg : String) : Err
  | invalidSpecJson (path : FsPath) : Err
  | ioRead (path : FsPath) : Err
deriving DecidableEq

deriving instance DecidableEq for Except

/-- Helper for `str::lines`: the accumulator holds the current line reversed;
on a `\n` the line is emitted with a trailing `\r` (the head of the reversed
accumulator) stripped, per the `\r\n` line-ending rule. -/
def emitLine (acc : List Char) : List Char :=
  match acc with
  | c :: rest => if c = '\r' then rest.reverse else acc.reverse
  | [] => []

/-- `str::lines` on a character list: split at `\n` (also consuming a `\r`
directly before it); a final fragment without a line ending is yielded
unchanged, and a trailing line ending yields no extra empty line. -/
def rustLinesCh : List Char → List Char → List (List Char)
  | [], acc => if acc.isEmpty then [] else [acc.reverse]
  | c :: rest, acc =>
    if c = '\n' then emitLine acc :: rustLinesCh rest []
    else rustLinesCh rest (c :: acc)

/-- `str::lines().map(to_owned).collect()` on a `String`. -/
def rustLines (s : String) : List String :=
  (rustLinesCh s.data []).map String.mk

/-- `rustc::targets` (`rustc --print target-list`): given the outcome of
`run_and_get_stdout`, split the stdout text into one triple per line. -/
def targets (stdoutR : Except Err String) : Except Err (List String) :=
  stdoutR.map rustLines

/-- Join lines with `\n` separators (no trailing newline): used to describe
concrete stdout texts in theorem statements. -/
def joinLines : List (List Char) → List Char
  | [] => []
  | [l] => l
  | l :: rest => l ++ '\n' :: joinLines rest

/-- FsPath to Rust source (`struct Src`). -/
structure Src : Type where
  path : FsPath
deriving DecidableEq

/-- `Src::from_env`: if the `XARGO_RUST_SRC` override is present, canonicalize
it, falling back to the raw path when canonicalization fails; absent, yield
nothing.  `canon` is the uninterpreted `Path::canonicalize` OS call. -/
def Src.from_env (envVal : Option FsPath) (canon : FsPath → Option FsPath) :
    Option Src :=
  envVal.map (fun p => ⟨(canon p).getD p⟩)

/-- FsPath to rustc's sysroot (`struct Sysroot`). -/
structure Sysroot : Type where
  path : FsPath
deriving DecidableEq

/-- The remediation message of the missing-source-component error. -/
def srcMissingMsg : String :=
  "rust-src component not found. Run rustup component add rust-src."

/-- `Sysroot::src`: probe the legacy layout
(`lib/rustlib/src/rust/src`, confirmed by `libstd/Cargo.toml`) and then the
modern layout (`lib/rustlib/src/rust/library`, confirmed by
`std/Cargo.toml`); neither present is an error. -/
def Sysroot.src (fs : FS) (self : Sysroot) : Except Err Src :=
  let src := self.path ++ ["lib", "rustlib", "src"]
  if fs.isFile (src ++ ["rust", "src", "libstd", "Cargo.toml"]) then
    Except.ok ⟨src ++ ["rust", "src"]⟩
  else if fs.isFile (src ++ ["rust", "library", "std", "Cargo.toml"]) then
    Except.ok ⟨src ++ ["rust", "library"]⟩
  else
    Except.error (Err.sourceComponentMissing srcMissingMsg)

/-- `Path::file_stem` on a single file-name component: the portion before the
last dot, except that a name whose only dot is leading is its own stem. -/
def stemChars (cs : List Char) : List Char :=
  let rev := cs.reverse
  let afterDot := rev.takeWhile (fun c => c ≠ '.')
  if afterDot.length = rev.length then cs
  else
    let stemRev := rev.drop (afterDot.length + 1)
    if stemRev.isEmpty then cs else stemRev.reverse

/-- `PathBuf::set_extension("json")` on one file-name component: replace the
extension (the part after the last dot) with `json`, or append `.json` when
there is none. -/
def setExtName (name : String) : String :=
  String.mk (stemChars name.data) ++ ".json"

/-- `PathBuf::set_extension("json")` on a path: rewrite the last component;
on a path with no components it does nothing. -/
def setExtension : FsPath → FsPath
  | [] => []
  | [x] => [setExtName x]
  | x :: y :: rest => x :: setExtension (y :: rest)

/-- `PathBuf::push`/`Path::join` with a triple modelled as a single relative
component: appends it, except that pushing the empty string is a no-op. -/
def pushStr (dir : FsPath) (s : String) : FsPath :=
  if s = "" then dir else dir ++ [s]

/-- `enum Target`. -/
inductive Target : Type
  | Builtin (triple : String) : Target
  | Custom (json : FsPath) (triple : String) : Target
deriving DecidableEq

/-- `Target::triple`. -/
def Target.triple : Target → String
  | Target.Builtin t => t
  | Target.Custom _ t => t

/-- `Target::new`: resolve a requested triple against the catalog
(`rustc::targets`), then `<root>/<triple>` with extension set to `json`, then
the same under the `RUST_TARGET_PATH` directory when that variable is set;
no match is `Ok(None)`. -/
def Target.new (stdoutR : Except Err String) (rustTargetPath : Option FsPath)
    (fs : FS) (root : FsPath) (triple : String) : Except Err (Option Target) :=
  match targets stdoutR with
  | Except.error e => Except.error e
  | Except.ok cat =>
    if cat.any (fun t => t == triple) then
      Except.ok (some (Target.Builtin triple))
    else
      if fs.pathExists (setExtension (pushStr root triple)) then
        Except.ok
          (some (Target.Custom (setExtension (pushStr root triple)) triple))
      else
        match rustTargetPath with
        | some p =>
          if fs.pathExists (setExtension (pushStr p triple)) then
            Except.ok
              (some (Target.Custom (setExtension (pushStr p triple)) triple))
          else
            Except.ok none
        | none => Except.ok none

/-- `serde_json::Value`: a generic structured JSON value. -/
inductive JValue : Type
  | null : JValue
  | bool (b : Bool) : JValue
  | num (n : Int) : JValue
  | str (s : String) : JValue
  | arr (elems : List JValue) : JValue
  | obj (fields : List (String × JValue)) : JValue

mutual

/-- `serde_json::Value::to_string`: serialize a value to a canonical string,
a function of the structured value only. -/
def JValue.toStr : JValue → String
  | JValue.null => "null"
  | JValue.bool b => if b then "true" else "false"
  | JValue.num n => toString n
  | JValue.str s => "\x22" ++ s ++ "\x22"
  | JValue.arr xs => "[" ++ toStrElems xs ++ "]"
  | JValue.obj fs => "\x7b" ++ toStrFields fs ++ "\x7d"

/-- Serialize array elements, comma-separated. -/
def toStrElems : List JValue → String
  | [] => ""
  | [x] => x.toStr
  | x :: y :: rest => x.toStr ++ "," ++ toStrElems (y :: rest)

/-- Serialize object fields, comma-separated. -/
def toStrFields : List (String × JValue) → String
  | [] => ""
  | [(k, v)] => "\x22" ++ k ++ "\x22:" ++ v.toStr
  | (k, v) :: f :: rest =>
    "\x22" ++ k ++ "\x22:" ++ v.toStr ++ "," ++ toStrFields (f :: rest)

end

/-- `Target::hash`: for `Builtin`, write nothing; for `Custom`, read the spec
file, parse it (`parse` is the uninterpreted `serde_json::from_str`), and
write the re-serialization of the parsed value to the hasher.  The hasher
state is the list of strings written so far. -/
def Target.hash (fs : FS) (parse : String → Option JValue) (t : Target)
    (st : List String) : Except Err (List String) :=
  match t with
  | Target.Builtin _ => Except.ok st
  | Target.Custom json _ =>
    match fs.read json with
    | none => Except.error (Err.ioRead json)
    | some text =>
      match parse text with
      | none => Except.error (Err.invalidSpecJson json)
      | some v => Except.ok (st ++ [v.toStr])

/-! ## Helper lemmas -/

/-- Packing the character list of a string yields the string back. -/
theorem string_mk_data (s : String) : String.mk s.data = s := by
  cases s
  rfl

/-- A catalog containing the triple makes the builtin membership test true. -/
theorem any_beq_of_mem (cat : List String) (triple : String)
    (h : triple ∈ cat) : cat.any (fun t => t == triple) = true := by
  rw [List.any_eq_true]
  exact ⟨triple, h, by simp⟩

/-- A catalog not containing the triple makes the builtin test false. -/
theorem any_beq_of_not_mem (cat : List String) (triple : String)
    (h : triple ∉ cat) : cat.any (fun t => t == triple) = false := by
  rw [Bool.eq_false_iff]
  intro hc
  rw [List.any_eq_true] at hc
  obtain ⟨x, hx, he⟩ := hc
  exact h (eq_of_beq he ▸ hx)

/-- `set_extension` rewrites exactly the last component. -/
theorem setExtension_append (xs : FsPath) (x : String) :
    setExtension (xs ++ [x]) = xs ++ [setExtName x] := by
  induction xs with
  | nil => rfl
  | cons a as ih =>
    cases as with
    | nil => rfl
    | cons b bs => exact congrArg (List.cons a) ih

/-- A dot-free file name keeps its whole name as the stem. -/
theorem stemChars_of_no_dot (cs : List Char) (h : '.' ∉ cs) :
    stemChars cs = cs := by
  have hall : ∀ c ∈ cs.reverse, c ≠ '.' := by
    intro c hc he
    exact h (he ▸ (List.mem_reverse.mp hc))
  have hTake : cs.reverse.takeWhile (fun c => c ≠ '.') = cs.reverse :=
    List.takeWhile_eq_self_iff.mpr (by intro x hx; simpa using hall x hx)
  simp only [stemChars]
  rw [hTake]
  simp

/-- On a dot-free triple, `set_extension` appends `.json` to the name. -/
theorem setExtName_of_no_dot (triple : String) (h : '.' ∉ triple.data) :
    setExtName triple = triple ++ ".json" := by
  unfold setExtName
  rw [stemChars_of_no_dot triple.data h, string_mk_data]

/-- The candidate path probed for a dot-free nonempty triple under a
directory is `<dir>/<triple>.json`. -/
theorem jsonCand_eq (dir : FsPath) (triple : String) (hne : triple ≠ "")
    (hdot : '.' ∉ triple.data) :
    setExtension (pushStr dir triple) = dir ++ [triple ++ ".json"] := by
  unfold pushStr
  rw [if_neg hne, setExtension_append, setExtName_of_no_dot triple hdot]

/-- Case analysis of a successful resolution: the produced target is the
builtin one, or a custom one whose probed path exists. -/
theorem target_new_ok_some (stdoutR : Except Err String)
    (rtp : Option FsPath) (fs : FS) (root : FsPath) (triple : String)
    (t : Target)
    (h : Target.new stdoutR rtp fs root triple = Except.ok (some t)) :
    t = Target.Builtin triple ∨
      ∃ j, t = Target.Custom j triple ∧ fs.pathExists j = true := by
  unfold Target.new at h
  split at h
  · cases h
  · split at h
    · simp only [Except.ok.injEq, Option.some.injEq] at h
      exact Or.inl h.symm
    · split at h
      next hj =>
        simp only [Except.ok.injEq, Option.some.injEq] at h
        exact Or.inr ⟨_, h.symm, hj⟩
      next =>
        split at h
        · split at h
          next hj2 =>
            simp only [Except.ok.injEq, Option.some.injEq] at h
            exact Or.inr ⟨_, h.symm, hj2⟩
          next => cases h
        · cases h

/-! ## Claims -/

/-- C1: a requested triple that is a member of the target catalog resolves
to `Builtin` carrying that triple, whatever `<triple>.json` files exist in
the project root or in the `RUST_TARGET_PATH` directory. -/
theorem builtin_precedence (stdoutR : Except Err String) (cat : List String)
    (rtp : Option FsPath) (fs : FS) (root : FsPath) (triple : String)
    (hcat : targets stdoutR = Except.ok cat) (hmem : triple ∈ cat) :
    Target.new stdoutR rtp fs root triple =
      Except.ok (some (Target.Builtin triple)) := by
  unfold Target.new
  simp only [hcat]
  rw [if_pos (any_beq_of_mem cat triple hmem)]

/-- C1 witness: the catalog triple wins even with a same-named spec file in
both the project root and the search directory. -/
theorem builtin_precedence_witness :
    targets (Except.ok "x\ny") = Except.ok ["x", "y"] ∧ "x" ∈ ["x", "y"] ∧
      Target.new (Except.ok "x\ny") (some ["env"])
        ⟨[(["proj", "x.json"], FsEntry.file "c"),
          (["env", "x.json"], FsEntry.file "c")]⟩ ["proj"] "x" =
        Except.ok (some (Target.Builtin "x")) :=
  ⟨by decide, by decide,
    builtin_precedence (Except.ok "x\ny") ["x", "y"] (some ["env"])
      ⟨[(["proj", "x.json"], FsEntry.file "c"),
        (["env", "x.json"], FsEntry.file "c")]⟩ ["proj"] "x"
      (by decide) (by decide)⟩

/-- C5: hashing a `Builtin` target writes nothing to the hasher and
succeeds, whatever the triple. -/
theorem builtin_hash_empty (fs : FS) (parse : String → Option JValue)
    (triple : String) (st : List String) :
    Target.hash fs parse (Target.Builtin triple) st = Except.ok st := rfl

/-- C4: two `Custom` targets whose spec files parse to the same JSON value
get the same string written to the hasher, namely the re-serialization of
that value. -/
theorem custom_hash_structural (fs : FS) (parse : String → Option JValue)
    (p1 p2 : FsPath) (t1 t2 : String) (c1 c2 : String) (v : JValue)
    (st : List String)
    (h1 : fs.read p1 = some c1) (h2 : fs.read p2 = some c2)
    (hp1 : parse c1 = some v) (hp2 : parse c2 = some v) :
    Target.hash fs parse (Target.Custom p1 t1) st =
        Except.ok (st ++ [v.toStr]) ∧
      Target.hash fs parse (Target.Custom p2 t2) st =
        Except.ok (st ++ [v.toStr]) := by
  simp [Target.hash, h1, h2, hp1, hp2]

/-- C4 witness: two textually different files whose parses agree hash to the
same contribution. -/
theorem custom_hash_structural_witness :
    Target.hash
        ⟨[(["a.json"], FsEntry.file "[1,2]"),
          (["b.json"], FsEntry.file "[ 1 , 2 ]")]⟩
        (fun s =>
          if s == "[1,2]" || s == "[ 1 , 2 ]" then
            some (JValue.arr [JValue.num 1, JValue.num 2])
          else none)
        (Target.Custom ["a.json"] "t1") [] =
      Except.ok [(JValue.arr [JValue.num 1, JValue.num 2]).toStr] ∧
    Target.hash
        ⟨[(["a.json"], FsEntry.file "[1,2]"),
          (["b.json"], FsEntry.file "[ 1 , 2 ]")]⟩
        (fun s =>
          if s == "[1,2]" || s == "[ 1 , 2 ]" then
            some (JValue.arr [JValue.num 1, JValue.num 2])
          else none)
        (Target.Custom ["b.json"] "t2") [] =
      Except.ok [(JValue.arr [JValue.num 1, JValue.num 2]).toStr] :=
  custom_hash_structural
    ⟨[(["a.json"], FsEntry.file "[1,2]"),
      (["b.json"], FsEntry.file "[ 1 , 2 ]")]⟩
    (fun s =>
      if s == "[1,2]" || s == "[ 1 , 2 ]" then
        some (JValue.arr [JValue.num 1, JValue.num 2])
      else none)
    ["a.json"] ["b.json"] "t1" "t2" "[1,2]" "[ 1 , 2 ]"
    (JValue.arr [JValue.num 1, JValue.num 2]) []
    rfl rfl rfl rfl

/-- C10: whenever resolution succeeds with a target, its `triple` accessor
returns the requested triple. -/
theorem target_triple_roundtrip (stdoutR : Except Err String)
    (rtp : Option FsPath) (fs : FS) (root : FsPath) (triple : String)
    (t : Target)
    (h : Target.new stdoutR rtp fs root triple = Except.ok (some t)) :
    t.triple = triple := by
  rcases target_new_ok_some stdoutR rtp fs root triple t h with h1 | ⟨j, h2, _⟩
  · rw [h1]; rfl
  · rw [h2]; rfl

/-- C10 witness: the accessor returns the requested triple on a concrete
custom resolution. -/
theorem target_triple_roundtrip_witness :
    Target.new (Except.ok "") none ⟨[(["proj", "t.json"], FsEntry.file "c")]⟩
        ["proj"] "t" =
        Except.ok (some (Target.Custom ["proj", "t.json"] "t")) ∧
      (Target.Custom ["proj", "t.json"] "t").triple = "t" :=
  ⟨by decide,
    target_triple_roundtrip (Except.ok "") none
      ⟨[(["proj", "t.json"], FsEntry.file "c")]⟩ ["proj"] "t"
      (Target.Custom ["proj", "t.json"] "t") (by decide)⟩

/-- C2 counterexample: for the triple `a.b` (absent from an empty catalog),
the file `a.b.json` exists directly under the project root, yet resolution
yields the unknown outcome, because `set_extension` probes `a.json`. -/
theorem root_custom_claim_cex :
    FS.pathExists ⟨[(["proj", "a.b.json"], FsEntry.file "spec")]⟩
        ["proj", "a.b.json"] = true ∧
      "a.b" ∉ rustLines "" ∧
      Target.new (Except.ok "") none
        ⟨[(["proj", "a.b.json"], FsEntry.file "spec")]⟩ ["proj"] "a.b" =
        Except.ok none := by decide

/-- C2 (amended): for a nonempty dot-free triple absent from the catalog,
a file `<triple>.json` directly under the project root resolves to `Custom`
at that file, whatever the search directory holds; for a triple containing
a dot the probed name replaces the part after the last dot with `json`. -/
theorem root_custom_precedence (stdoutR : Except Err String)
    (cat : List String) (rtp : Option FsPath) (fs : FS) (root : FsPath)
    (triple : String)
    (hcat : targets stdoutR = Except.ok cat)
    (hne : triple ≠ "") (hdot : '.' ∉ triple.data)
    (hmem : triple ∉ cat)
    (hfile : fs.pathExists (root ++ [triple ++ ".json"]) = true) :
    Target.new stdoutR rtp fs root triple =
      Except.ok (some (Target.Custom (root ++ [triple ++ ".json"]) triple)) := by
  have hfalse := any_beq_of_not_mem cat triple hmem
  have hcand := jsonCand_eq root triple hne hdot
  unfold Target.new
  simp [hcat, hfalse, hcand, hfile]

/-- C2 witness: a project-root spec file wins over a same-named file in the
search directory. -/
theorem root_custom_precedence_witness :
    ("t" : String) ≠ "" ∧ '.' ∉ ("t" : String).data ∧
      "t" ∉ rustLines "x" ∧
      FS.pathExists
          ⟨[(["proj", "t.json"], FsEntry.file "a"),
            (["env", "t.json"], FsEntry.file "b")]⟩ ["proj", "t.json"] =
        true ∧
      Target.new (Except.ok "x") (some ["env"])
          ⟨[(["proj", "t.json"], FsEntry.file "a"),
            (["env", "t.json"], FsEntry.file "b")]⟩ ["proj"] "t" =
        Except.ok (some (Target.Custom ["proj", "t.json"] "t")) :=
  ⟨by decide, by decide, by decide, by decide,
    root_custom_precedence (Except.ok "x") ["x"] (some ["env"])
      ⟨[(["proj", "t.json"], FsEntry.file "a"),
        (["env", "t.json"], FsEntry.file "b")]⟩ ["proj"] "t"
      (by decide) (by decide) (by decide) (by decide) (by decide)⟩

/-- C3 counterexample: for the triple `a.b`, no `a.b.json` exists anywhere
and the search directory is unset, yet resolution is not the unknown
outcome: the `set_extension` probe finds the unrelated file `a.json`. -/
theorem unknown_target_claim_cex :
    "a.b" ∉ rustLines "" ∧
      FS.pathExists ⟨[(["proj", "a.json"], FsEntry.file "spec")]⟩
          ["proj", "a.b.json"] = false ∧
      Target.new (Except.ok "") none
        ⟨[(["proj", "a.json"], FsEntry.file "spec")]⟩ ["proj"] "a.b" =
        Except.ok (some (Target.Custom ["proj", "a.json"] "a.b")) := by decide

/-- C3 (amended): for a nonempty dot-free triple absent from the catalog,
with no `<triple>.json` under the project root nor under the search
directory (or that directory unset), resolution succeeds with the empty
outcome, not an error. -/
theorem unknown_target_none (stdoutR : Except Err String) (cat : List String)
    (rtp : Option FsPath) (fs : FS) (root : FsPath) (triple : String)
    (hcat : targets stdoutR = Except.ok cat)
    (hne : triple ≠ "") (hdot : '.' ∉ triple.data)
    (hmem : triple ∉ cat)
    (hroot : fs.pathExists (root ++ [triple ++ ".json"]) = false)
    (henv : ∀ p, rtp = some p →
      fs.pathExists (p ++ [triple ++ ".json"]) = false) :
    Target.new stdoutR rtp fs root triple = Except.ok none := by
  have hfalse := any_beq_of_not_mem cat triple hmem
  cases rtp with
  | none =>
    unfold Target.new
    simp [hcat, hfalse, jsonCand_eq root triple hne hdot, hroot]
  | some p =>
    unfold Target.new
    simp [hcat, hfalse, jsonCand_eq root triple hne hdot, hroot,
      jsonCand_eq p triple hne hdot, henv p rfl]

/-- C3 witness: a triple unknown everywhere yields `Ok(None)`. -/
theorem unknown_target_none_witness :
    ("t" : String) ≠ "" ∧ '.' ∉ ("t" : String).data ∧
      "t" ∉ rustLines "x" ∧
      FS.pathExists (⟨[]⟩ : FS) ["proj", "t.json"] = false ∧
      Target.new (Except.ok "x") (some ["env"]) (⟨[]⟩ : FS) ["proj"] "t" =
        Except.ok none :=
  ⟨by decide, by decide, by decide, by decide,
    unknown_target_none (Except.ok "x") ["x"] (some ["env"]) (⟨[]⟩ : FS)
      ["proj"] "t" (by decide) (by decide) (by decide) (by decide)
      (by decide) (by intro p hp; cases hp; decide)⟩

/-- C6: source-tree resolution probes the legacy layout first and the modern
layout second, the first confirmed manifest wins, and neither manifest is
the source-component-missing error. -/
theorem sysroot_src_probe_order (fs : FS) (sys : Sysroot) :
    (fs.isFile (sys.path ++
          ["lib", "rustlib", "src", "rust", "src", "libstd", "Cargo.toml"]) =
        true →
      Sysroot.src fs sys =
        Except.ok ⟨sys.path ++ ["lib", "rustlib", "src", "rust", "src"]⟩) ∧
    (fs.isFile (sys.path ++
          ["lib", "rustlib", "src", "rust", "src", "libstd", "Cargo.toml"]) =
        false →
      fs.isFile (sys.path ++
          ["lib", "rustlib", "src", "rust", "library", "std", "Cargo.toml"]) =
        true →
      Sysroot.src fs sys =
        Except.ok ⟨sys.path ++ ["lib", "rustlib", "src", "rust", "library"]⟩) ∧
    (fs.isFile (sys.path ++
          ["lib", "rustlib", "src", "rust", "src", "libstd", "Cargo.toml"]) =
        false →
      fs.isFile (sys.path ++
          ["lib", "rustlib", "src", "rust", "library", "std", "Cargo.toml"]) =
        false →
      Sysroot.src fs sys =
        Except.error (Err.sourceComponentMissing srcMissingMsg)) := by
  refine ⟨fun h1 => ?_, fun h1 h2 => ?_, fun h1 h2 => ?_⟩
  · unfold Sysroot.src
    simp [h1]
  · unfold Sysroot.src
    simp [h1, h2]
  · unfold Sysroot.src
    simp [h1, h2]

/-- C6 witness: with both confirmation manifests present, the legacy layout
is the one resolved. -/
theorem sysroot_src_probe_order_witness :
    FS.isFile
        ⟨[(["sys", "lib", "rustlib", "src", "rust", "src", "libstd",
              "Cargo.toml"], FsEntry.file "m"),
          (["sys", "lib", "rustlib", "src", "rust", "library", "std",
              "Cargo.toml"], FsEntry.file "m")]⟩
        ["sys", "lib", "rustlib", "src", "rust", "src", "libstd",
          "Cargo.toml"] = true ∧
      Sysroot.src
          ⟨[(["sys", "lib", "rustlib", "src", "rust", "src", "libstd",
                "Cargo.toml"], FsEntry.file "m"),
            (["sys", "lib", "rustlib", "src", "rust", "library", "std",
                "Cargo.toml"], FsEntry.file "m")]⟩ ⟨["sys"]⟩ =
        Except.ok ⟨["sys", "lib", "rustlib", "src", "rust", "src"]⟩ :=
  ⟨by decide,
    (sysroot_src_probe_order
        ⟨[(["sys", "lib", "rustlib", "src", "rust", "src", "libstd",
              "Cargo.toml"], FsEntry.file "m"),
          (["sys", "lib", "rustlib", "src", "rust", "library", "std",
              "Cargo.toml"], FsEntry.file "m")]⟩ ⟨["sys"]⟩).1 (by decide)⟩

/-- C7 counterexample: resolution can produce a `Builtin` target with an
empty triple (a blank catalog line), and a `Custom` target whose probed
path exists but is a directory, not a file. -/
theorem target_invariant_claim_cex :
    (Target.new (Except.ok "\n") none ⟨[]⟩ ["proj"] "" =
        Except.ok (some (Target.Builtin "")) ∧
      (Target.Builtin "").triple = "") ∧
      (Target.new (Except.ok "") none ⟨[(["proj", "t.json"], FsEntry.dir)]⟩
          ["proj"] "t" =
        Except.ok (some (Target.Custom ["proj", "t.json"] "t")) ∧
      FS.isFile ⟨[(["proj", "t.json"], FsEntry.dir)]⟩ ["proj", "t.json"] =
        false) := by decide

/-- C7 (amended): every resolved target carries the requested triple
(possibly empty), and a `Custom` target's spec path existed on disk (as a
file or directory) at the moment of construction. -/
theorem target_new_invariant (stdoutR : Except Err String)
    (rtp : Option FsPath) (fs : FS) (root : FsPath) (triple : String)
    (t : Target)
    (h : Target.new stdoutR rtp fs root triple = Except.ok (some t)) :
    t.triple = triple ∧
      (∀ j tr, t = Target.Custom j tr → fs.pathExists j = true) := by
  rcases target_new_ok_some stdoutR rtp fs root triple t h with
    h1 | ⟨j, h2, hj⟩
  · refine ⟨by rw [h1]; rfl, ?_⟩
    intro j2 tr2 hc
    rw [h1] at hc
    cases hc
  · refine ⟨by rw [h2]; rfl, ?_⟩
    intro j2 tr2 hc
    rw [h2] at hc
    injection hc with e1 e2
    exact e1 ▸ hj

/-- C7 witness: the amended invariant on a concrete custom resolution. -/
theorem target_new_invariant_witness :
    Target.new (Except.ok "") none
        ⟨[(["proj", "u.json"], FsEntry.file "c")]⟩ ["proj"] "u" =
        Except.ok (some (Target.Custom ["proj", "u.json"] "u")) ∧
      ((Target.Custom ["proj", "u.json"] "u").triple = "u" ∧
        ∀ j tr, Target.Custom ["proj", "u.json"] "u" = Target.Custom j tr →
          FS.pathExists ⟨[(["proj", "u.json"], FsEntry.file "c")]⟩ j = true) :=
  ⟨by decide,
    target_new_invariant (Except.ok "") none
      ⟨[(["proj", "u.json"], FsEntry.file "c")]⟩ ["proj"] "u"
      (Target.Custom ["proj", "u.json"] "u") (by decide)⟩

/-- C9: with the source-tree override present, canonicalization success uses
the canonical path and failure falls back to the raw path; with the
override absent the result is empty; no case is an error. -/
theorem src_from_env_spec (canon : FsPath → Option FsPath) :
    Src.from_env none canon = none ∧
      (∀ p q, canon p = some q → Src.from_env (some p) canon = some ⟨q⟩) ∧
      (∀ p, canon p = none → Src.from_env (some p) canon = some ⟨p⟩) := by
  refine ⟨rfl, ?_, ?_⟩
  · intro p q h
    simp [Src.from_env, h]
  · intro p h
    simp [Src.from_env, h]

/-- C9 witness: fallback to the raw path under a failing canonicalization. -/
theorem src_from_env_spec_witness :
    (fun _ : FsPath => (none : Option FsPath)) ["rel"] = none ∧
      Src.from_env (some ["rel"]) (fun _ => none) = some ⟨["rel"]⟩ :=
  ⟨rfl, (src_from_env_spec (fun _ => none)).2.2 ["rel"] rfl⟩

/-- Consuming newline-free characters only accumulates them (reversed). -/
theorem rustLinesCh_append_noNl (l : List Char) :
    '\n' ∉ l → ∀ acc rest,
      rustLinesCh (l ++ rest) acc = rustLinesCh rest (l.reverse ++ acc) := by
  induction l with
  | nil =>
    intro _ acc rest
    simp
  | cons c cs ih =>
    intro h acc rest
    have hc : c ≠ '\n' := fun e => h (e ▸ List.mem_cons_self c cs)
    have hcs : '\n' ∉ cs := fun hm => h (List.mem_cons_of_mem c hm)
    show rustLinesCh (c :: (cs ++ rest)) acc = _
    rw [rustLinesCh, if_neg hc, ih hcs (c :: acc) rest]
    simp

/-- Emitting a reversed line with no carriage return restores the line. -/
theorem emitLine_reverse (cs : List Char) (hne : cs ≠ []) (hr : '\r' ∉ cs) :
    emitLine cs.reverse = cs := by
  cases hrev : cs.reverse with
  | nil => exact absurd (by simpa using congrArg List.reverse hrev) hne
  | cons a t =>
    have ha : a ≠ '\r' := by
      intro e
      apply hr
      have hm : a ∈ cs.reverse := by
        rw [hrev]
        exact List.mem_cons_self a t
      exact e ▸ List.mem_reverse.mp hm
    show emitLine (a :: t) = cs
    simp only [emitLine, if_neg ha]
    rw [← hrev, List.reverse_reverse]

/-- Splitting a newline-joined list of clean lines recovers the lines. -/
theorem rustLinesCh_joinLines (css : List (List Char))
    (h : ∀ cs ∈ css, cs ≠ [] ∧ '\n' ∉ cs ∧ '\r' ∉ cs) :
    rustLinesCh (joinLines css) [] = css := by
  induction css with
  | nil => rfl
  | cons cs rest ih =>
    obtain ⟨hne, hnl, hnr⟩ := h cs (List.mem_cons_self cs rest)
    have hrest : ∀ x ∈ rest, x ≠ [] ∧ '\n' ∉ x ∧ '\r' ∉ x :=
      fun x hx => h x (List.mem_cons_of_mem cs hx)
    cases rest with
    | nil =>
      show rustLinesCh cs [] = [cs]
      have he := rustLinesCh_append_noNl cs hnl [] []
      simp only [List.append_nil] at he
      rw [he, rustLinesCh]
      simp [hne]
    | cons cs2 rest2 =>
      show rustLinesCh (cs ++ '\n' :: joinLines (cs2 :: rest2)) [] =
        cs :: cs2 :: rest2
      rw [rustLinesCh_append_noNl cs hnl [] ('\n' :: joinLines (cs2 :: rest2))]
      simp only [List.append_nil]
      rw [rustLinesCh, if_pos rfl, emitLine_reverse cs hne hnr,
        ih hrest]

/-- C8: the catalog splits the stdout text into one triple per line,
preserving order and content and keeping duplicates: joining any list of
nonempty lines free of line-ending characters with newlines and splitting
it returns exactly that list. -/
theorem targets_line_split (ls : List String)
    (h : ∀ l ∈ ls, l ≠ "" ∧ '\n' ∉ l.data ∧ '\r' ∉ l.data) :
    targets (Except.ok (String.mk (joinLines (ls.map String.data)))) =
      Except.ok ls := by
  have hcss : ∀ cs ∈ ls.map String.data, cs ≠ [] ∧ '\n' ∉ cs ∧ '\r' ∉ cs := by
    intro cs hcs
    obtain ⟨l, hl, rfl⟩ := List.mem_map.mp hcs
    obtain ⟨h1, h2, h3⟩ := h l hl
    refine ⟨?_, h2, h3⟩
    intro e
    apply h1
    have hc := congrArg String.mk e
    rwa [string_mk_data] at hc
  have hmain :
      rustLines (String.mk (joinLines (ls.map String.data))) = ls := by
    unfold rustLines
    show (rustLinesCh (joinLines (ls.map String.data)) []).map String.mk = ls
    rw [rustLinesCh_joinLines (ls.map String.data) hcss, List.map_map]
    have hid : (String.mk ∘ String.data) = id := funext fun l => string_mk_data l
    rw [hid, List.map_id]
  show Except.ok (rustLines (String.mk (joinLines (ls.map String.data)))) =
    Except.ok ls
  rw [hmain]

/-- C8 witness: order and duplicates are preserved on a concrete output. -/
theorem targets_line_split_witness :
    (∀ l ∈ ["a", "b", "a"], l ≠ "" ∧ '\n' ∉ l.data ∧ '\r' ∉ l.data) ∧
      targets
          (Except.ok (String.mk (joinLines (["a", "b", "a"].map String.data)))) =
        Except.ok ["a", "b", "a"] :=
  ⟨by decide, targets_line_split ["a", "b", "a"] (by decide)⟩
